import Mathlib

/-!
Formal model of the WhoaNoise noise-generation core.

Two source variants are embedded:
* the double-buffered processor (`src/noise-processor.js`), modelled by
  `NoiseProcessor` / `white` / `process`, where white samples are read from a
  pre-filled pair of buffers refilled incrementally from the underlying
  uniform stream, and
* the unbuffered processor (`src/unnamed/part_000`), modelled by
  `UnbufferedState` / `getSampleU`, where each white sample is drawn directly
  from the underlying uniform stream.

The underlying `Math.random() * 2 - 1` source is modelled as a function
`stream : Nat → ℚ` together with an explicit read cursor: the n-th call to
the random source returns `stream n`.  Float32 arithmetic is idealised as
exact rational arithmetic.  The five per-sample generator algorithms
(`pink`, `brown`, `blue`, `violet` and the pass-through white case of
`getSample`) are textually identical in the two source files, so they are
embedded once and shared by both variant models.
-/

namespace WhoaNoise

/-- buffer capacity: `this.bufferSize = 48000 * 30` (30 s at 48 kHz). -/
def bufferSize : Nat := 48000 * 30

/-- generator state shared by both variants: pink rows / running sum /
counter, brown accumulator, blue and violet delay registers. -/
structure GenState where
  pinkRows : Nat → ℚ
  pinkRunningSum : ℚ
  pinkIndex : Nat
  brownLast : ℚ
  blueLast : ℚ
  violetLast0 : ℚ
  violetLast1 : ℚ

/-- freshly constructed generator state (all fields zero). -/
def g0 : GenState := ⟨fun _ => 0, 0, 0, 0, 0, 0, 0⟩

/-- loop `while ((n & 1) === 0 && numZeros < 16) { numZeros++; n >>= 1; }`;
the fuel argument is `16 - numZeros`. -/
def ctzGo : Nat → Nat → Nat → Nat
  | 0, _, numZeros => numZeros
  | fuel + 1, n, numZeros =>
    if n % 2 = 0 then ctzGo fuel (n / 2) (numZeros + 1) else numZeros

/-- trailing-zero count of the pink counter, capped at 16. -/
def countTrailingZeros (n : Nat) : Nat := ctzGo 16 n 0

/-- one `pink()` call given the single white draw `w`
(`pinkIndexMask = (1 << 16) - 1`, so the masked increment is `% 2^16`). -/
def pink (w : ℚ) (g : GenState) : ℚ × GenState :=
  let pi := (g.pinkIndex + 1) % 65536
  let nz := countTrailingZeros pi
  if nz < 16 then
    let s := g.pinkRunningSum - g.pinkRows nz + w
    ((s + w) / 17,
      { g with pinkIndex := pi, pinkRunningSum := s,
               pinkRows := Function.update g.pinkRows nz w })
  else
    ((g.pinkRunningSum + w) / 17, { g with pinkIndex := pi })

/-- one `brown()` call given the white draw `w`. -/
def brown (w : ℚ) (g : GenState) : ℚ × GenState :=
  let b := (g.brownLast + 0.02 * w) / 1.02
  (b * 3.5, { g with brownLast := b })

/-- one `blue()` call given the white draw `w`. -/
def blue (w : ℚ) (g : GenState) : ℚ × GenState :=
  ((w - g.blueLast) * 0.7, { g with blueLast := w })

/-- one `violet()` call given the white draw `w`. -/
def violet (w : ℚ) (g : GenState) : ℚ × GenState :=
  let diff1 := w - g.violetLast0
  let diff2 := diff1 - g.violetLast1
  (diff2 * 0.5, { g with violetLast0 := w, violetLast1 := diff1 })

/-- the `switch (this.noiseType)` dispatch of `getSample()`, factored over the
single white draw `w` that every branch performs; the `'white'` and `default`
cases both return the draw unchanged. -/
def applyGen (t : String) (w : ℚ) (g : GenState) : ℚ × GenState :=
  if t = "pink" then pink w g
  else if t = "brown" then brown w g
  else if t = "blue" then blue w g
  else if t = "violet" then violet w g
  else (w, g)

/-! ### Unbuffered variant (`src/unnamed/part_000`) -/

/-- state of the unbuffered processor: noise type, generator state, and the
read cursor into the underlying uniform stream (its `white()` draws
directly from `Math.random`). -/
structure UnbufferedState where
  noiseType : String
  cursor : Nat
  gen : GenState

/-- unbuffered processor right after construction and a `setNoiseType t`
message (the constructor itself starts at `'white'`). -/
def initU (t : String) : UnbufferedState := ⟨t, 0, g0⟩

/-- one `getSample()` call of the unbuffered variant. -/
def getSampleU (stream : Nat → ℚ) (s : UnbufferedState) : ℚ × UnbufferedState :=
  let w := stream s.cursor
  let r := applyGen s.noiseType w s.gen
  (r.1, { s with cursor := s.cursor + 1, gen := r.2 })

/-- the `port.onmessage` handler of the unbuffered variant. -/
def onmessageU (s : UnbufferedState) (msgType noiseType : String) : UnbufferedState :=
  if msgType = "setNoiseType" then { s with noiseType := noiseType } else s

/-- state after `n` `getSample()` calls on a fresh unbuffered engine. -/
def iterU (stream : Nat → ℚ) (t : String) : Nat → UnbufferedState
  | 0 => initU t
  | n + 1 => (getSampleU stream (iterU stream t n)).2

/-- the `n`-th sample (0-indexed) of a fresh unbuffered engine of kind `t`. -/
def sampleU (stream : Nat → ℚ) (t : String) (n : Nat) : ℚ :=
  (getSampleU stream (iterU stream t n)).1

/-! ### Double-buffered variant (`src/noise-processor.js`) -/

/-- buffer-side state of the double-buffered processor.  `cursor` is the
read position of the underlying uniform stream consumed by `bufferFill`. -/
structure BufState where
  active : Nat → ℚ
  inactive : Nat → ℚ
  index : Nat
  fillPointer : Nat
  frameCount : Nat
  cursor : Nat

/-- `bufferFill(buffer, start, count)`: the loop
`for (let i = 0; i < count && start + i < buffer.length; i++)
  buffer[start + i] = Math.random() * 2 - 1;`
returning the updated buffer together with the advanced stream cursor. -/
def bufferFill (stream : Nat → ℚ) (len : Nat) :
    (Nat → ℚ) → Nat → Nat → Nat → (Nat → ℚ) × Nat
  | buf, _, 0, cursor => (buf, cursor)
  | buf, start, count + 1, cursor =>
    if start < len then
      bufferFill stream len (Function.update buf start (stream cursor))
        (start + 1) count (cursor + 1)
    else (buf, cursor)

/-- buffer state after the constructor: both buffers (initially all-zero
`Float32Array`s) fully filled, A first then B. -/
def initBuf (stream : Nat → ℚ) : BufState :=
  let fa := bufferFill stream bufferSize (fun _ => 0) 0 bufferSize 0
  let fb := bufferFill stream bufferSize (fun _ => 0) 0 bufferSize fa.2
  ⟨fa.1, fb.1, 0, 0, 0, fb.2⟩

/-- full state of the double-buffered processor. -/
structure NoiseProcessor where
  noiseType : String
  buf : BufState
  gen : GenState

/-- double-buffered processor right after construction and a
`setNoiseType t` message. -/
def initB (stream : Nat → ℚ) (t : String) : NoiseProcessor :=
  ⟨t, initBuf stream, g0⟩

/-- one `white()` call of the double-buffered variant: read
`activeBuffer[index++]`; if the incremented index reaches the buffer
length, swap the buffer roles and reset `index` and `fillPointer`. -/
def white (s : BufState) : ℚ × BufState :=
  let sample := s.active s.index
  let i := s.index + 1
  if i ≥ bufferSize then
    (sample, { s with active := s.inactive, inactive := s.active,
                      index := 0, fillPointer := 0 })
  else
    (sample, { s with index := i })

/-- one `getSample()` call of the double-buffered variant. -/
def getSampleB (s : NoiseProcessor) : ℚ × NoiseProcessor :=
  let r := white s.buf
  let q := applyGen s.noiseType r.1 s.gen
  (q.1, { s with buf := r.2, gen := q.2 })

/-- the `port.onmessage` handler of the double-buffered variant. -/
def onmessage (s : NoiseProcessor) (msgType noiseType : String) : NoiseProcessor :=
  if msgType = "setNoiseType" then { s with noiseType := noiseType } else s

/-- the inner loop of `process`: `n` consecutive `getSample()` calls filling
one output channel. -/
def genList : Nat → NoiseProcessor → List ℚ × NoiseProcessor
  | 0, s => ([], s)
  | n + 1, s =>
    let r := getSampleB s
    let q := genList n r.2
    (r.1 :: q.1, q.2)

/-- the channel loop of `process`: each channel is filled in turn by
`blockSize` fresh `getSample()` calls. -/
def processChannels : Nat → Nat → NoiseProcessor → List (List ℚ) × NoiseProcessor
  | 0, _, s => ([], s)
  | c + 1, blockSize, s =>
    let r := genList blockSize s
    let q := processChannels c blockSize r.2
    (r.1 :: q.1, q.2)

/-- the tail of `process`: `frameCount++`, then on every 10th frame with an
unfinished refill, write one 4800-sample chunk of fresh uniform values into
the inactive buffer at `fillPointer` and advance `fillPointer` by 4800. -/
def refillCheck (stream : Nat → ℚ) (s : NoiseProcessor) : NoiseProcessor :=
  let fc := s.buf.frameCount + 1
  if fc % 10 = 0 ∧ s.buf.fillPointer < bufferSize then
    let r := bufferFill stream bufferSize s.buf.inactive s.buf.fillPointer 4800 s.buf.cursor
    let b := { s.buf with
               frameCount := fc
               inactive := r.1
               fillPointer := s.buf.fillPointer + 4800
               cursor := r.2 }
    { s with buf := b }
  else
    { s with buf := { s.buf with frameCount := fc } }

/-- one `process(inputs, outputs, parameters)` call of the double-buffered
variant for an output block of `numChannels` channels of `blockSize` samples. -/
def process (stream : Nat → ℚ) (numChannels blockSize : Nat) (s : NoiseProcessor) :
    List (List ℚ) × NoiseProcessor :=
  let r := processChannels numChannels blockSize s
  (r.1, refillCheck stream r.2)

/-- the inner loop of the unbuffered `process`. -/
def genListU (stream : Nat → ℚ) : Nat → UnbufferedState → List ℚ × UnbufferedState
  | 0, s => ([], s)
  | n + 1, s =>
    let r := getSampleU stream s
    let q := genListU stream n r.2
    (r.1 :: q.1, q.2)

/-- the channel loop of the unbuffered `process`. -/
def processChannelsU (stream : Nat → ℚ) :
    Nat → Nat → UnbufferedState → List (List ℚ) × UnbufferedState
  | 0, _, s => ([], s)
  | c + 1, blockSize, s =>
    let r := genListU stream blockSize s
    let q := processChannelsU stream c blockSize r.2
    (r.1 :: q.1, q.2)

/-- one `process` call of the unbuffered variant (no refill phase). -/
def processU (stream : Nat → ℚ) (numChannels blockSize : Nat) (s : UnbufferedState) :
    List (List ℚ) × UnbufferedState :=
  processChannelsU stream numChannels blockSize s

/-! ### Driving the two variants with the typical host block (1 channel,
128 samples per block) -/

/-- concatenated sample output of `k` `process` calls (1 channel,
128 samples each) of the double-buffered variant from a fresh engine. -/
def runB (stream : Nat → ℚ) (t : String) : Nat → List ℚ × NoiseProcessor
  | 0 => ([], initB stream t)
  | k + 1 =>
    let p := runB stream t k
    let q := process stream 1 128 p.2
    (p.1 ++ q.1.flatten, q.2)

/-- concatenated sample output of `k` `process` calls (1 channel,
128 samples each) of the unbuffered variant from a fresh engine. -/
def runU (stream : Nat → ℚ) (t : String) : Nat → List ℚ × UnbufferedState
  | 0 => ([], initU t)
  | k + 1 =>
    let p := runU stream t k
    let q := processU stream 1 128 p.2
    (p.1 ++ q.1.flatten, q.2)

/-! ### Pure white-draw iteration of the double-buffered variant -/

/-- buffer state after `n` plain `white()` calls on a fresh engine. -/
def whiteIter (stream : Nat → ℚ) : Nat → BufState
  | 0 => initBuf stream
  | n + 1 => (white (whiteIter stream n)).2

/-- the `n`-th value (0-indexed) consumed from the buffers via `white()`. -/
def whiteSample (stream : Nat → ℚ) (n : Nat) : ℚ :=
  (white (whiteIter stream n)).1

/-! ### Concrete streams and bounds used in the statements -/

/-- the per-kind output bound: 3.5 for brown, 1.4 for blue, 2 for violet,
1 for white, pink and the fallback default. -/
def kindBound (t : String) : ℚ :=
  if t = "brown" then 3.5 else if t = "blue" then 1.4
  else if t = "violet" then 2 else 1

/-- a concrete injective uniform stream with every value in `(0, 1/2]`. -/
def st9 : Nat → ℚ := fun n => 1 / ((n : ℚ) + 2)

/-- the alternating `+1, -1, +1, ...` input stream. -/
def altStream : Nat → ℚ := fun n => if n % 2 = 0 then 1 else -1

/-- the alternating `0.9, -0.9, 0.9, ...` input stream. -/
def altNine : Nat → ℚ := fun n => if n % 2 = 0 then 9/10 else -(9/10)

/-- idealised contents of buffer A after the initial fill. -/
def streamA (stream : Nat → ℚ) : Nat → ℚ :=
  fun j => if j < bufferSize then stream j else 0

/-- idealised contents of buffer B after the initial fill. -/
def streamB (stream : Nat → ℚ) : Nat → ℚ :=
  fun j => if j < bufferSize then stream (bufferSize + j) else 0

/-! ### Basic characterizations -/

/-- closed form of `bufferFill` when the written range fits in the buffer. -/
theorem bufferFill_eq (stream : Nat → ℚ) (len : Nat) :
    ∀ (count start cursor : Nat) (buf : Nat → ℚ), start + count ≤ len →
      bufferFill stream len buf start count cursor =
        (fun j => if start ≤ j ∧ j < start + count then stream (cursor + (j - start)) else buf j,
         cursor + count) := by
  intro count
  induction count with
  | zero =>
    intro start cursor buf _
    simp only [bufferFill, Prod.mk.injEq]
    constructor
    · funext j
      have h : ¬ (start ≤ j ∧ j < start + 0) := by omega
      rw [if_neg h]
    · omega
  | succ n ih =>
    intro start cursor buf h
    have hs : start < len := by omega
    simp only [bufferFill, if_pos hs]
    rw [ih (start + 1) (cursor + 1) _ (by omega)]
    simp only [Prod.mk.injEq]
    constructor
    · funext j
      by_cases h1 : j = start
      · have ha : ¬ (start + 1 ≤ j ∧ j < start + 1 + n) := by omega
        have hb : start ≤ j ∧ j < start + (n + 1) := by omega
        simp [ha, hb, Function.update, h1]
      · by_cases h2 : start + 1 ≤ j ∧ j < start + 1 + n
        · have hb : start ≤ j ∧ j < start + (n + 1) := by omega
          have harg : cursor + 1 + (j - (start + 1)) = cursor + (j - start) := by omega
          simp [h2, hb, harg]
        · have hb : ¬ (start ≤ j ∧ j < start + (n + 1)) := by omega
          simp [h2, hb, Function.update, h1]
    · omega

/-- closed form of `bufferFill` with no side condition: writes are clipped
at the buffer length, and the stream cursor advances only by the number of
values actually written. -/
theorem bufferFill_eq_clip (stream : Nat → ℚ) (len : Nat) :
    ∀ (count start cursor : Nat) (buf : Nat → ℚ),
      bufferFill stream len buf start count cursor
        = (fun j => if start ≤ j ∧ j < start + count ∧ j < len
            then stream (cursor + (j - start)) else buf j,
           cursor + min count (len - start)) := by
  intro count
  induction count with
  | zero =>
    intro start cursor buf
    simp only [bufferFill, Prod.mk.injEq]
    constructor
    · funext j
      rw [if_neg (by omega)]
    · omega
  | succ n ih =>
    intro start cursor buf
    by_cases hs : start < len
    · simp only [bufferFill, if_pos hs]
      rw [ih (start + 1) (cursor + 1)]
      simp only [Prod.mk.injEq]
      constructor
      · funext j
        by_cases h1 : j = start
        · have ha : ¬ (start + 1 ≤ j ∧ j < start + 1 + n ∧ j < len) := by omega
          have hb : start ≤ j ∧ j < start + (n + 1) ∧ j < len := by omega
          simp [ha, hb, Function.update, h1, hs]
        · by_cases h2 : start + 1 ≤ j ∧ j < start + 1 + n ∧ j < len
          · have hb : start ≤ j ∧ j < start + (n + 1) ∧ j < len := by omega
            have harg : cursor + 1 + (j - (start + 1)) = cursor + (j - start) := by omega
            simp [h2, hb, harg]
          · have hb : ¬ (start ≤ j ∧ j < start + (n + 1) ∧ j < len) := by omega
            simp [h2, hb, Function.update, h1]
      · omega
    · simp only [bufferFill, if_neg hs]
      simp only [Prod.mk.injEq]
      constructor
      · funext j
        rw [if_neg (by omega)]
      · omega

/-- the constructor fills buffer A with the stream values `[0, bufferSize)`,
buffer B with `[bufferSize, 2·bufferSize)`, and leaves the stream cursor at
`2 · bufferSize`. -/
theorem initBuf_eq (stream : Nat → ℚ) :
    initBuf stream = ⟨streamA stream, streamB stream, 0, 0, 0, 2 * bufferSize⟩ := by
  have h1 := bufferFill_eq stream bufferSize bufferSize 0 0 (fun _ => 0) (by omega)
  have h2 := bufferFill_eq stream bufferSize bufferSize 0 (0 + bufferSize) (fun _ => 0) (by omega)
  simp only [initBuf, h1, h2, BufState.mk.injEq]
  refine ⟨?_, ?_, trivial, trivial, trivial, by omega⟩
  · funext j
    by_cases hj : j < bufferSize
    · have h : 0 ≤ j ∧ j < 0 + bufferSize := by omega
      simp [h, streamA, hj]
    · have h : ¬ (0 ≤ j ∧ j < 0 + bufferSize) := by omega
      simp [h, streamA, hj]
  · funext j
    by_cases hj : j < bufferSize
    · have h : 0 ≤ j ∧ j < 0 + bufferSize := by omega
      simp [h, streamB, hj, Nat.add_comm]
    · have h : ¬ (0 ≤ j ∧ j < 0 + bufferSize) := by omega
      simp [h, streamB, hj]

theorem applyGen_pink (w : ℚ) (g : GenState) : applyGen "pink" w g = pink w g := by
  simp [applyGen]

theorem applyGen_brown (w : ℚ) (g : GenState) : applyGen "brown" w g = brown w g := by
  simp [applyGen]

theorem applyGen_blue (w : ℚ) (g : GenState) : applyGen "blue" w g = blue w g := by
  simp [applyGen]

theorem applyGen_violet (w : ℚ) (g : GenState) : applyGen "violet" w g = violet w g := by
  simp [applyGen]

theorem applyGen_white (w : ℚ) (g : GenState) : applyGen "white" w g = (w, g) := by
  simp [applyGen]

theorem applyGen_default (t : String) (w : ℚ) (g : GenState)
    (h2 : t ≠ "pink") (h3 : t ≠ "brown") (h4 : t ≠ "blue") (h5 : t ≠ "violet") :
    applyGen t w g = (w, g) := by
  simp [applyGen, h2, h3, h4, h5]

/-- the pink output always equals (new running sum + the one white draw) / 17. -/
theorem pink_fst (w : ℚ) (g : GenState) :
    (pink w g).1 = ((pink w g).2.pinkRunningSum + w) / 17 := by
  simp only [pink]
  split <;> rfl

theorem iterU_noiseType (stream : Nat → ℚ) (t : String) (n : Nat) :
    (iterU stream t n).noiseType = t := by
  induction n with
  | zero => rfl
  | succ n ih => simpa [iterU, getSampleU] using ih

theorem iterU_cursor (stream : Nat → ℚ) (t : String) (n : Nat) :
    (iterU stream t n).cursor = n := by
  induction n with
  | zero => rfl
  | succ n ih => simpa [iterU, getSampleU] using ih

/-- one leaky-integration step keeps the brown accumulator in `[-1, 1]`. -/
theorem brownAbs (w b : ℚ) (hw : |w| ≤ 1) (hb : |b| ≤ 1) :
    |(b + 0.02 * w) / 1.02| ≤ 1 := by
  rw [abs_div]
  have h1 : |b + 0.02 * w| ≤ 1.02 := by
    calc |b + 0.02 * w| ≤ |b| + |0.02 * w| := abs_add _ _
      _ = |b| + 0.02 * |w| := by rw [abs_mul]; norm_num
      _ ≤ 1 + 0.02 * 1 := by
          have h2 := mul_le_mul_of_nonneg_left hw (by norm_num : (0:ℚ) ≤ 0.02)
          linarith
      _ = 1.02 := by norm_num
  have h2 : |(1.02 : ℚ)| = 1.02 := by norm_num
  rw [h2, div_le_one (by norm_num)]
  exact h1

/-- the brown accumulator never leaves `[-1, 1]` when all inputs lie in it. -/
theorem brownIterBound (stream : Nat → ℚ) (hs : ∀ n, |stream n| ≤ 1) (n : Nat) :
    |(iterU stream "brown" n).gen.brownLast| ≤ 1 := by
  induction n with
  | zero => simp [iterU, initU, g0]
  | succ n ih =>
    have ht := iterU_noiseType stream "brown" n
    simp only [iterU, getSampleU, ht, applyGen_brown, brown]
    exact brownAbs _ _ (hs _) ih

/-- C10: handling a `setNoiseType` control message mutates only the
`noiseType` field — generator state and all buffer state are unchanged —
and switching kinds away and back restores the exact engine state, so each
generator resumes rather than reinitializes. -/
theorem C10_message_frame (s : NoiseProcessor) (t : String) :
    (onmessage s "setNoiseType" t).gen = s.gen ∧
    (onmessage s "setNoiseType" t).buf = s.buf ∧
    (onmessage s "setNoiseType" t).noiseType = t ∧
    onmessage (onmessage s "setNoiseType" t) "setNoiseType" s.noiseType = s := by
  obtain ⟨nt, b, g⟩ := s
  refine ⟨?_, ?_, ?_, ?_⟩ <;> simp [onmessage]

/-- C8: a control message carrying any noise-type string outside the five
known kinds leaves the engine functional and makes the next `getSample()`
behave exactly as the white generator: it returns the raw uniform draw and
advances only the cursor. -/
theorem C8_unknown_kind_defaults_white (stream : Nat → ℚ) (t : String) (s : UnbufferedState)
    (h1 : t ≠ "white") (h2 : t ≠ "pink") (h3 : t ≠ "brown") (h4 : t ≠ "blue")
    (h5 : t ≠ "violet") :
    getSampleU stream (onmessageU s "setNoiseType" t) =
      (stream s.cursor, { s with noiseType := t, cursor := s.cursor + 1 }) := by
  obtain ⟨nt, c, g⟩ := s
  simp [getSampleU, onmessageU, applyGen_default t _ _ h2 h3 h4 h5]

/-- C8 witness: the unknown kind "orange" falls through to the white branch
on a fresh engine. -/
theorem C8_unknown_kind_defaults_white_witness :
    getSampleU (fun _ => 0) (onmessageU (initU "white") "setNoiseType" "orange") =
      (0, { initU "white" with noiseType := "orange", cursor := 1 }) :=
  C8_unknown_kind_defaults_white (fun _ => 0) "orange" (initU "white")
    (by decide) (by decide) (by decide) (by decide) (by decide)

/-- C2 counterexample: one `pink()` call on a fresh engine advances the
uniform-source read cursor by exactly 1, not 2 — `pink()` draws a single
uniform value and reuses it for both the row update and the added
high-frequency term. -/
theorem C2_counterexample :
    (getSampleU st9 (initU "pink")).2.cursor = 1 ∧
    (getSampleU st9 (initU "pink")).2.cursor ≠ 2 := by
  decide

/-- C2 amended: every `getSample()` call — for every noise kind, pink
included — advances the uniform-source read cursor by exactly 1; the pink
output adds the same single draw (not a second fresh draw) to the updated
running sum before dividing by 17. -/
theorem C2_amended_single_draw (stream : Nat → ℚ) (s : UnbufferedState) :
    (getSampleU stream s).2.cursor = s.cursor + 1 ∧
    (getSampleU stream { s with noiseType := "pink" }).1 =
      ((getSampleU stream { s with noiseType := "pink" }).2.gen.pinkRunningSum
        + stream s.cursor) / 17 := by
  refine ⟨rfl, ?_⟩
  have h : ∀ w g, (applyGen "pink" w g).1 = ((applyGen "pink" w g).2.pinkRunningSum + w) / 17 := by
    intro w g
    rw [applyGen_pink]
    exact pink_fst w g
  simpa [getSampleU] using h (stream s.cursor) s.gen

/-- C6: each `brown()` call performs exactly the leaky-integration update
`acc' = (acc + 0.02 · w) / 1.02` and returns `acc' · 3.5`; moreover, with
alternating `±1` inputs the accumulator magnitude never exceeds
`1 / 0.02 = 50` after any number of steps (in particular after 1,000,000). -/
theorem C6_brown_recurrence_and_stability :
    (∀ (stream : Nat → ℚ) (s : UnbufferedState),
      (getSampleU stream { s with noiseType := "brown" }).2.gen.brownLast
          = (s.gen.brownLast + 0.02 * stream s.cursor) / 1.02 ∧
      (getSampleU stream { s with noiseType := "brown" }).1
          = (getSampleU stream { s with noiseType := "brown" }).2.gen.brownLast * 3.5) ∧
    (∀ N : Nat, |(iterU altStream "brown" N).gen.brownLast| ≤ 50) := by
  constructor
  · intro stream s
    constructor
    · simp [getSampleU, applyGen_brown, brown]
    · simp [getSampleU, applyGen_brown, brown]
  · intro N
    have halt : ∀ n, |altStream n| ≤ 1 := by
      intro n
      by_cases h : n % 2 = 0 <;> simp [altStream, h]
    have h := brownIterBound altStream halt N
    linarith

/-! ### Pink running-sum invariant and amplitude bounds -/

theorem sumUpdate (f : Nat → ℚ) (k : Nat) (hk : k < 16) (v : ℚ) :
    ∑ i ∈ Finset.range 16, Function.update f k v i
      = (∑ i ∈ Finset.range 16, f i) - f k + v := by
  have hk' : k ∈ Finset.range 16 := Finset.mem_range.mpr hk
  rw [Finset.sum_update_of_mem hk', Finset.sdiff_singleton_eq_erase,
    Finset.sum_erase_eq_sub hk']
  ring

/-- one `pink()` call preserves "running sum = sum of the 16 rows". -/
theorem pinkPreservesSum (w : ℚ) (g : GenState)
    (h : g.pinkRunningSum = ∑ i ∈ Finset.range 16, g.pinkRows i) :
    (pink w g).2.pinkRunningSum = ∑ i ∈ Finset.range 16, (pink w g).2.pinkRows i := by
  simp only [pink]
  split
  · next hnz =>
      show g.pinkRunningSum - g.pinkRows _ + w = _
      rw [sumUpdate _ _ hnz, h]
  · simpa using h

/-- C4: starting from the freshly constructed all-zero pink state, after any
number of pink-noise samples the running sum equals the sum of the 16 row
values (exact rational arithmetic). -/
theorem C4_pink_running_sum (stream : Nat → ℚ) (N : Nat) :
    (iterU stream "pink" N).gen.pinkRunningSum
      = ∑ i ∈ Finset.range 16, (iterU stream "pink" N).gen.pinkRows i := by
  induction N with
  | zero => simp [iterU, initU, g0]
  | succ n ih =>
    have ht := iterU_noiseType stream "pink" n
    simp only [iterU, getSampleU, ht, applyGen_pink]
    exact pinkPreservesSum _ _ ih

/-- generator-state invariant giving the per-kind amplitude bounds. -/
def GInv (g : GenState) : Prop :=
  (∀ i, |g.pinkRows i| ≤ 1) ∧
  g.pinkRunningSum = ∑ i ∈ Finset.range 16, g.pinkRows i ∧
  |g.brownLast| ≤ 1 ∧ |g.blueLast| ≤ 1 ∧ |g.violetLast0| ≤ 1 ∧ |g.violetLast1| ≤ 2

theorem rowSumBound (f : Nat → ℚ) (hf : ∀ i, |f i| ≤ 1) :
    |∑ i ∈ Finset.range 16, f i| ≤ 16 := by
  calc |∑ i ∈ Finset.range 16, f i| ≤ ∑ i ∈ Finset.range 16, |f i| :=
        Finset.abs_sum_le_sum_abs _ _
    _ ≤ ∑ _i ∈ Finset.range 16, (1 : ℚ) := Finset.sum_le_sum (fun i _ => hf i)
    _ = 16 := by simp

/-- one generator step of any kind preserves `GInv` and keeps the output
within the kind-specific bound. -/
theorem applyGenInv (t : String) (w : ℚ) (g : GenState) (hw : |w| ≤ 1) (hg : GInv g) :
    GInv (applyGen t w g).2 ∧ |(applyGen t w g).1| ≤ kindBound t := by
  obtain ⟨hrows, hsum, hbrown, hblue, hv0, hv1⟩ := hg
  by_cases ht1 : t = "pink"
  · subst ht1
    rw [applyGen_pink]
    have hb : kindBound "pink" = 1 := by simp [kindBound]
    rw [hb]
    simp only [pink]
    set nz := countTrailingZeros ((g.pinkIndex + 1) % 65536) with hnz0
    split
    · next hnz =>
        have hrows' : ∀ i, |Function.update g.pinkRows nz w i| ≤ 1 := by
          intro i
          by_cases hi : i = nz
          · rw [hi, Function.update_same]
            exact hw
          · rw [Function.update_noteq hi]
            exact hrows i
        have hsum' : g.pinkRunningSum - g.pinkRows nz + w
            = ∑ i ∈ Finset.range 16, Function.update g.pinkRows nz w i := by
          rw [sumUpdate _ _ hnz, hsum]
        refine ⟨⟨hrows', hsum', hbrown, hblue, hv0, hv1⟩, ?_⟩
        have h16 : |g.pinkRunningSum - g.pinkRows nz + w| ≤ 16 := by
          rw [hsum']
          exact rowSumBound _ hrows'
        rw [abs_div]
        have h17 : |(17 : ℚ)| = 17 := by norm_num
        rw [h17, div_le_one (by norm_num)]
        calc |g.pinkRunningSum - g.pinkRows nz + w + w|
            ≤ |g.pinkRunningSum - g.pinkRows nz + w| + |w| := abs_add _ _
          _ ≤ 16 + 1 := add_le_add h16 hw
          _ = 17 := by norm_num
    · refine ⟨⟨hrows, hsum, hbrown, hblue, hv0, hv1⟩, ?_⟩
      have h16 : |g.pinkRunningSum| ≤ 16 := by
        rw [hsum]
        exact rowSumBound _ hrows
      rw [abs_div]
      have h17 : |(17 : ℚ)| = 17 := by norm_num
      rw [h17, div_le_one (by norm_num)]
      calc |g.pinkRunningSum + w| ≤ |g.pinkRunningSum| + |w| := abs_add _ _
        _ ≤ 16 + 1 := add_le_add h16 hw
        _ = 17 := by norm_num
  · by_cases ht2 : t = "brown"
    · subst ht2
      rw [applyGen_brown]
      have hb : kindBound "brown" = 3.5 := by simp [kindBound]
      rw [hb]
      simp only [brown]
      have hacc : |(g.brownLast + 0.02 * w) / 1.02| ≤ 1 := brownAbs w _ hw hbrown
      refine ⟨⟨hrows, hsum, hacc, hblue, hv0, hv1⟩, ?_⟩
      rw [abs_mul]
      have h35 : |(3.5 : ℚ)| = 3.5 := by norm_num
      rw [h35]
      nlinarith [hacc]
    · by_cases ht3 : t = "blue"
      · subst ht3
        rw [applyGen_blue]
        have hb : kindBound "blue" = 1.4 := by simp [kindBound]
        rw [hb]
        simp only [blue]
        refine ⟨⟨hrows, hsum, hbrown, hw, hv0, hv1⟩, ?_⟩
        rw [abs_mul]
        have h07 : |(0.7 : ℚ)| = 0.7 := by norm_num
        rw [h07]
        have hd : |w - g.blueLast| ≤ 2 := by
          calc |w - g.blueLast| ≤ |w| + |g.blueLast| := abs_sub _ _
            _ ≤ 1 + 1 := add_le_add hw hblue
            _ = 2 := by norm_num
        nlinarith [hd]
      · by_cases ht4 : t = "violet"
        · subst ht4
          rw [applyGen_violet]
          have hb : kindBound "violet" = 2 := by simp [kindBound]
          rw [hb]
          simp only [violet]
          have hd1 : |w - g.violetLast0| ≤ 2 := by
            calc |w - g.violetLast0| ≤ |w| + |g.violetLast0| := abs_sub _ _
              _ ≤ 1 + 1 := add_le_add hw hv0
              _ = 2 := by norm_num
          have hd2 : |w - g.violetLast0 - g.violetLast1| ≤ 4 := by
            calc |w - g.violetLast0 - g.violetLast1|
                ≤ |w - g.violetLast0| + |g.violetLast1| := abs_sub _ _
              _ ≤ 2 + 2 := add_le_add hd1 hv1
              _ = 4 := by norm_num
          refine ⟨⟨hrows, hsum, hbrown, hblue, hw, hd1⟩, ?_⟩
          rw [abs_mul]
          have h05 : |(0.5 : ℚ)| = 0.5 := by norm_num
          rw [h05]
          nlinarith [hd2]
        · rw [applyGen_default t w g ht1 ht2 ht3 ht4]
          have hb : kindBound t = 1 := by simp [kindBound, ht2, ht3, ht4]
          rw [hb]
          exact ⟨⟨hrows, hsum, hbrown, hblue, hv0, hv1⟩, hw⟩

theorem iterUGInv (stream : Nat → ℚ) (hs : ∀ n, |stream n| ≤ 1) (t : String) (n : Nat) :
    GInv (iterU stream t n).gen := by
  induction n with
  | zero =>
    refine ⟨fun i => by simp [iterU, initU, g0], ?_, ?_, ?_, ?_, ?_⟩ <;>
      simp [iterU, initU, g0]
  | succ n ih =>
    have ht := iterU_noiseType stream t n
    simp only [iterU, getSampleU, ht]
    exact (applyGenInv t _ _ (hs _) ih).1

/-- C5 counterexample: with inputs `0.9, -0.9` (both inside `[-1, 1)`), the
second violet sample is `-1.35`, whose magnitude exceeds the claimed
violet bound of (approximately) 1. -/
theorem C5_counterexample :
    (-1 ≤ altNine 0 ∧ altNine 0 < 1) ∧ (-1 ≤ altNine 1 ∧ altNine 1 < 1) ∧
    1 < |sampleU altNine "violet" 1| := by
  refine ⟨⟨by norm_num [altNine], by norm_num [altNine]⟩,
    ⟨by norm_num [altNine], by norm_num [altNine]⟩, ?_⟩
  have h : sampleU altNine "violet" 1 = -(27/20) := by
    simp [sampleU, iterU, getSampleU, applyGen, violet, initU, g0, altNine]
    norm_num
  rw [h, abs_neg, abs_of_nonneg (by norm_num : (0:ℚ) ≤ 27/20)]
  norm_num

/-- C5 amended: for every noise kind and every input sequence in `[-1, 1)`,
every produced sample is bounded by the kind-specific constant: 1 for
white and pink, 3.5 for brown, 1.4 for blue, and 2 (not 1) for violet. -/
theorem C5_amended_bounds (stream : Nat → ℚ)
    (h : ∀ n, -1 ≤ stream n ∧ stream n < 1) (t : String) (N : Nat) :
    |sampleU stream t N| ≤ kindBound t := by
  have hs : ∀ n, |stream n| ≤ 1 := fun n =>
    abs_le.mpr ⟨(h n).1, le_of_lt (h n).2⟩
  have ht := iterU_noiseType stream t N
  have hg := iterUGInv stream hs t N
  simp only [sampleU, getSampleU, ht]
  exact (applyGenInv t _ _ (hs _) hg).2

/-- C5 witness: the amended bound instantiated for brown at step 3 on the
all-zero input stream. -/
theorem C5_amended_bounds_witness :
    |sampleU (fun _ => 0) "brown" 3| ≤ kindBound "brown" :=
  C5_amended_bounds (fun _ => 0) (fun n => by norm_num) "brown" 3

/-! ### Buffer-swap behaviour of plain white consumption -/

theorem white_fst (s : BufState) : (white s).1 = s.active s.index := by
  dsimp only [white]
  split <;> rfl

/-- a `white()` call below the capacity boundary only advances the index. -/
theorem white_step (s : BufState) (h : s.index + 1 < bufferSize) :
    (white s).2 = { s with index := s.index + 1 } := by
  dsimp only [white]
  rw [if_neg (by omega : ¬ s.index + 1 ≥ bufferSize)]

/-- a `white()` call at the capacity boundary swaps the buffer roles and
resets the index and the fill pointer. -/
theorem white_swap (s : BufState) (h : s.index + 1 ≥ bufferSize) :
    (white s).2 = { s with active := s.inactive, inactive := s.active,
                           index := 0, fillPointer := 0 } := by
  dsimp only [white]
  rw [if_pos h]

theorem whiteSample_eq (stream : Nat → ℚ) (n : Nat) :
    whiteSample stream n = (white (whiteIter stream n)).1 := rfl

/-- before the capacity is reached, `n` white draws only advance the index. -/
theorem whiteIterLt (stream : Nat → ℚ) :
    ∀ n, n < bufferSize →
      whiteIter stream n = ⟨streamA stream, streamB stream, n, 0, 0, 2 * bufferSize⟩ := by
  intro n
  induction n with
  | zero =>
    intro _
    show initBuf stream = _
    rw [initBuf_eq]
  | succ n ih =>
    intro h
    have hn : n < bufferSize := by omega
    show (white (whiteIter stream n)).2 = _
    rw [ih hn]
    rw [white_step ⟨streamA stream, streamB stream, n, 0, 0, 2 * bufferSize⟩ h]

/-- at exactly `bufferSize` draws the buffers have swapped and both the
index and the fill pointer are reset. -/
theorem whiteIterCap (stream : Nat → ℚ) :
    whiteIter stream bufferSize =
      ⟨streamB stream, streamA stream, 0, 0, 0, 2 * bufferSize⟩ := by
  have h3 : whiteIter stream bufferSize = (white (whiteIter stream 1439999)).2 := by
    rw [show bufferSize = 1439999 + 1 from by norm_num [bufferSize], whiteIter]
  rw [h3, whiteIterLt stream 1439999 (by norm_num [bufferSize]),
    white_swap ⟨streamA stream, streamB stream, 1439999, 0, 0, 2 * bufferSize⟩
      (by norm_num [bufferSize])]

/-- C3: consuming via `white()` returns `activeBuffer[index]` and increments
the index; when the incremented index reaches the capacity the buffer roles
swap (the just-exhausted buffer becomes the new inactive buffer), the read
index is reset to 0 and the refill progress marker (`fillPointer`) is reset
to 0; the first `bufferSize` samples of a fresh engine come from the
initial active buffer at consecutive positions; after exactly `bufferSize`
draws the old inactive buffer is active, the old active buffer is the new
inactive (refill target), index and fill pointer are 0, so the next
consumed sample (0-indexed sample `bufferSize`) is index 0 of the
previously inactive buffer, and the read index is 1 after that consumption. -/
theorem C3_buffer_swap (stream : Nat → ℚ) :
    (∀ s : BufState, (white s).1 = s.active s.index) ∧
    (∀ s : BufState, s.index + 1 < bufferSize → (white s).2.index = s.index + 1) ∧
    (∀ s : BufState, s.index + 1 ≥ bufferSize →
      (white s).2.active = s.inactive ∧ (white s).2.inactive = s.active ∧
      (white s).2.index = 0 ∧ (white s).2.fillPointer = 0) ∧
    (∀ n, n < bufferSize → whiteSample stream n = (initBuf stream).active n) ∧
    (whiteIter stream bufferSize).active = (initBuf stream).inactive ∧
    (whiteIter stream bufferSize).inactive = (initBuf stream).active ∧
    (whiteIter stream bufferSize).index = 0 ∧
    (whiteIter stream bufferSize).fillPointer = 0 ∧
    whiteSample stream bufferSize = (initBuf stream).inactive 0 ∧
    (whiteIter stream (bufferSize + 1)).index = 1 := by
  refine ⟨white_fst, ?_, ?_, ?_, ?_, ?_, ?_, ?_, ?_, ?_⟩
  · intro s h
    rw [white_step s h]
  · intro s h
    rw [white_swap s h]
    exact ⟨rfl, rfl, rfl, rfl⟩
  · intro n hn
    rw [whiteSample_eq stream n, white_fst, whiteIterLt stream n hn, initBuf_eq]
  · rw [whiteIterCap, initBuf_eq]
  · rw [whiteIterCap, initBuf_eq]
  · rw [whiteIterCap]
  · rw [whiteIterCap]
  · rw [whiteSample_eq stream bufferSize, whiteIterCap, white_fst, initBuf_eq]
  · have h4 : whiteIter stream (bufferSize + 1) = (white (whiteIter stream bufferSize)).2 := by
      rw [whiteIter]
    rw [h4, whiteIterCap]
    rw [white_step ⟨streamB stream, streamA stream, 0, 0, 0, 2 * bufferSize⟩
      (by norm_num [bufferSize])]

/-- C3 witness: instances of the indexed parts at sample 2, of the swap
behaviour at a concrete boundary state, and of the post-swap facts for a
concrete stream. -/
theorem C3_buffer_swap_witness :
    whiteSample st9 2 = (initBuf st9).active 2 ∧
    (white ⟨streamA st9, streamB st9, 1439999, 0, 0, 0⟩).2.fillPointer = 0 ∧
    (whiteIter st9 bufferSize).fillPointer = 0 ∧
    whiteSample st9 bufferSize = (initBuf st9).inactive 0 ∧
    (whiteIter st9 (bufferSize + 1)).index = 1 :=
  ⟨(C3_buffer_swap st9).2.2.2.1 2 (by norm_num [bufferSize]),
   ((C3_buffer_swap st9).2.2.1 ⟨streamA st9, streamB st9, 1439999, 0, 0, 0⟩
     (by norm_num [bufferSize])).2.2.2,
   (C3_buffer_swap st9).2.2.2.2.2.2.2.1,
   (C3_buffer_swap st9).2.2.2.2.2.2.2.2.1,
   (C3_buffer_swap st9).2.2.2.2.2.2.2.2.2⟩

/-! ### Block dispatch: channels receive consecutive samples -/

theorem process_fst (stream : Nat → ℚ) (nch blk : Nat) (s : NoiseProcessor) :
    (process stream nch blk s).1 = (processChannels nch blk s).1 := rfl

theorem process_snd (stream : Nat → ℚ) (nch blk : Nat) (s : NoiseProcessor) :
    (process stream nch blk s).2 = refillCheck stream (processChannels nch blk s).2 := rfl

/-- splitting a sample run: the first `m` samples then the next `n`. -/
theorem genList_add (m n : Nat) (s : NoiseProcessor) :
    genList (m + n) s
      = ((genList m s).1 ++ (genList n (genList m s).2).1, (genList n (genList m s).2).2) := by
  induction m generalizing s with
  | zero => simp [genList]
  | succ m ih =>
    have h1 : m + 1 + n = (m + n) + 1 := by omega
    rw [h1]
    simp only [genList]
    rw [ih ((getSampleB s).2)]
    simp

/-- the channel loop produces `c` channels whose concatenation is one
consecutive run of `c · blk` samples. -/
theorem processChannels_spec (blk : Nat) :
    ∀ (c : Nat) (s : NoiseProcessor),
      (processChannels c blk s).1.flatten = (genList (c * blk) s).1 ∧
      (processChannels c blk s).2 = (genList (c * blk) s).2 ∧
      (processChannels c blk s).1.length = c := by
  intro c
  induction c with
  | zero => intro s; simp [processChannels, genList]
  | succ c ih =>
    intro s
    obtain ⟨ha, hb, hc⟩ := ih ((genList blk s).2)
    have h1 : (c + 1) * blk = blk + c * blk := by ring
    simp only [processChannels, h1, genList_add blk (c * blk) s]
    refine ⟨?_, ?_, ?_⟩
    · simp only [List.flatten_cons, ha]
    · exact hb
    · simp [hc]

/-- C1 counterexample state: the freshly constructed engine on the stream
`st9`, written out explicitly. -/
def cexState : NoiseProcessor :=
  ⟨"white", ⟨streamA st9, streamB st9, 0, 0, 0, 2 * bufferSize⟩, g0⟩

/-- one `getSample()` call below the swap boundary, written out. -/
theorem getSampleB_eq (s : NoiseProcessor) (h : s.buf.index + 1 < bufferSize) :
    getSampleB s = ((applyGen s.noiseType (s.buf.active s.buf.index) s.gen).1,
      ⟨s.noiseType, { s.buf with index := s.buf.index + 1 },
        (applyGen s.noiseType (s.buf.active s.buf.index) s.gen).2⟩) := by
  simp only [getSampleB]
  rw [white_fst, white_step s.buf h]

/-- C1 counterexample: a 2-channel, 1-sample block on the fresh engine puts
`st9 0` in channel 0 and the different value `st9 1` in channel 1 — the
channels are not duplicates of each other. -/
theorem C1_counterexample :
    initB st9 "white" = cexState ∧
    (process st9 2 1 cexState).1 = [[st9 0], [st9 1]] ∧ st9 0 ≠ st9 1 := by
  refine ⟨?_, ?_, ?_⟩
  · simp only [initB, initBuf_eq, cexState]
  · rw [process_fst]
    norm_num [processChannels, genList, getSampleB, white, applyGen_white, cexState,
      streamA, bufferSize, st9]
  · norm_num [st9]

/-- C1 amended: `process` fills the channels with consecutive segments of
one generated sample run — channel `c` continues where channel `c-1`
stopped: the concatenation over the block's channels equals the plain run
of `numChannels · blockSize` successive `getSample()` calls. -/
theorem C1_amended_channels_consecutive (stream : Nat → ℚ) (nch blk : Nat)
    (s : NoiseProcessor) :
    (process stream nch blk s).1.flatten = (genList (nch * blk) s).1 ∧
    (process stream nch blk s).1.length = nch := by
  rw [process_fst]
  exact ⟨(processChannels_spec blk nch s).1, (processChannels_spec blk nch s).2.2⟩

/-! ### Refill policy -/

theorem getSampleB_fp (s : NoiseProcessor) :
    (getSampleB s).2.buf.fillPointer = s.buf.fillPointer ∨
    (getSampleB s).2.buf.fillPointer = 0 := by
  have h : (getSampleB s).2.buf = (white s.buf).2 := rfl
  rw [h]
  dsimp only [white]
  split
  · right; rfl
  · left; rfl

theorem genList_fp (n : Nat) :
    ∀ s : NoiseProcessor, (genList n s).2.buf.fillPointer = s.buf.fillPointer ∨
      (genList n s).2.buf.fillPointer = 0 := by
  induction n with
  | zero => intro s; left; rfl
  | succ n ih =>
    intro s
    have h : (genList (n + 1) s).2 = (genList n (getSampleB s).2).2 := by
      simp only [genList]
    rw [h]
    rcases ih ((getSampleB s).2) with h1 | h1
    · rw [h1]; exact getSampleB_fp s
    · rw [h1]; right; rfl

/-- the refill branch of `process`: on an eligible frame, one 4800-sample
chunk of fresh stream values is written into the inactive buffer at the
fill pointer; everything else, the active buffer in particular, is kept. -/
theorem refillCheck_pos (stream : Nat → ℚ) (s : NoiseProcessor)
    (hfp : s.buf.fillPointer + 4800 ≤ bufferSize)
    (hc : (s.buf.frameCount + 1) % 10 = 0 ∧ s.buf.fillPointer < bufferSize) :
    (refillCheck stream s).buf.fillPointer = s.buf.fillPointer + 4800 ∧
    (∀ j, (refillCheck stream s).buf.inactive j =
      if s.buf.fillPointer ≤ j ∧ j < s.buf.fillPointer + 4800
      then stream (s.buf.cursor + (j - s.buf.fillPointer))
      else s.buf.inactive j) ∧
    (refillCheck stream s).buf.active = s.buf.active ∧
    (refillCheck stream s).buf.cursor = s.buf.cursor + 4800 ∧
    (refillCheck stream s).buf.frameCount = s.buf.frameCount + 1 ∧
    (refillCheck stream s).buf.index = s.buf.index ∧
    (refillCheck stream s).noiseType = s.noiseType ∧
    (refillCheck stream s).gen = s.gen := by
  have hb := bufferFill_eq stream bufferSize 4800 s.buf.fillPointer s.buf.cursor
    s.buf.inactive hfp
  dsimp only [refillCheck]
  rw [if_pos hc, hb]
  exact ⟨rfl, fun j => rfl, rfl, rfl, rfl, rfl, rfl, rfl⟩

/-- the no-refill branch of `process`: only the frame counter changes. -/
theorem refillCheck_neg (stream : Nat → ℚ) (s : NoiseProcessor)
    (hc : ¬ ((s.buf.frameCount + 1) % 10 = 0 ∧ s.buf.fillPointer < bufferSize)) :
    refillCheck stream s
      = { s with buf := { s.buf with frameCount := s.buf.frameCount + 1 } } := by
  dsimp only [refillCheck]
  rw [if_neg hc]

/-- field-level version of the no-refill branch. -/
theorem refillCheck_neg_fields (stream : Nat → ℚ) (s : NoiseProcessor)
    (hc : ¬ ((s.buf.frameCount + 1) % 10 = 0 ∧ s.buf.fillPointer < bufferSize)) :
    (refillCheck stream s).buf.fillPointer = s.buf.fillPointer ∧
    (∀ j, (refillCheck stream s).buf.inactive j = s.buf.inactive j) ∧
    (refillCheck stream s).buf.active = s.buf.active ∧
    (refillCheck stream s).buf.cursor = s.buf.cursor ∧
    (refillCheck stream s).buf.frameCount = s.buf.frameCount + 1 ∧
    (refillCheck stream s).buf.index = s.buf.index ∧
    (refillCheck stream s).noiseType = s.noiseType ∧
    (refillCheck stream s).gen = s.gen := by
  dsimp only [refillCheck]
  rw [if_neg hc]
  exact ⟨rfl, fun j => rfl, rfl, rfl, rfl, rfl, rfl, rfl⟩

/-- the refill branch with no alignment side condition: writes are clipped
at the buffer end, the fill pointer still advances by 4800, and the active
buffer is untouched. -/
theorem refillCheck_pos_clip (stream : Nat → ℚ) (s : NoiseProcessor)
    (hc : (s.buf.frameCount + 1) % 10 = 0 ∧ s.buf.fillPointer < bufferSize) :
    (refillCheck stream s).buf.fillPointer = s.buf.fillPointer + 4800 ∧
    (∀ j, (refillCheck stream s).buf.inactive j =
      if s.buf.fillPointer ≤ j ∧ j < s.buf.fillPointer + 4800 ∧ j < bufferSize
      then stream (s.buf.cursor + (j - s.buf.fillPointer))
      else s.buf.inactive j) ∧
    (refillCheck stream s).buf.active = s.buf.active := by
  have hb := bufferFill_eq_clip stream bufferSize 4800 s.buf.fillPointer s.buf.cursor
    s.buf.inactive
  dsimp only [refillCheck]
  rw [if_pos hc, hb]
  exact ⟨rfl, fun j => rfl, rfl⟩

/-- C7: with `s1` the engine state after the block has been drained, the
tail of `process` refills exactly when the incremented frame counter is a
multiple of 10 and the fill pointer is below capacity; then one chunk of
4800 fresh uniform values is written into the inactive buffer starting at
the fill pointer (writes clipped at the buffer end, all other inactive
positions kept), the fill pointer advances by 4800, and the active buffer
is untouched; otherwise the state is unchanged apart from the frame
counter — in particular, once the marker has reached capacity no position
of either buffer is written and the marker stays put until the next swap,
and the refill never writes into the currently active buffer. -/
theorem C7_refill_policy (stream : Nat → ℚ) (nch blk : Nat) (s s1 : NoiseProcessor)
    (hs1 : (processChannels nch blk s).2 = s1) :
    ((s1.buf.frameCount + 1) % 10 = 0 ∧ s1.buf.fillPointer < bufferSize →
      (process stream nch blk s).2.buf.fillPointer = s1.buf.fillPointer + 4800 ∧
      (∀ j, (process stream nch blk s).2.buf.inactive j =
        if s1.buf.fillPointer ≤ j ∧ j < s1.buf.fillPointer + 4800 ∧ j < bufferSize
        then stream (s1.buf.cursor + (j - s1.buf.fillPointer)) else s1.buf.inactive j) ∧
      (process stream nch blk s).2.buf.active = s1.buf.active) ∧
    (¬ ((s1.buf.frameCount + 1) % 10 = 0 ∧ s1.buf.fillPointer < bufferSize) →
      (process stream nch blk s).2 =
        { s1 with buf := { s1.buf with frameCount := s1.buf.frameCount + 1 } }) ∧
    (bufferSize ≤ s1.buf.fillPointer →
      (process stream nch blk s).2.buf.inactive = s1.buf.inactive ∧
      (process stream nch blk s).2.buf.active = s1.buf.active ∧
      (process stream nch blk s).2.buf.fillPointer = s1.buf.fillPointer) := by
  have hp : (process stream nch blk s).2 = refillCheck stream s1 := by
    rw [process_snd, hs1]
  refine ⟨?_, ?_, ?_⟩
  · intro hc
    obtain ⟨a, b, c⟩ := refillCheck_pos_clip stream s1 hc
    rw [hp]
    exact ⟨a, b, c⟩
  · intro hc
    rw [hp, refillCheck_neg stream s1 hc]
  · intro hcap
    have hc : ¬ ((s1.buf.frameCount + 1) % 10 = 0 ∧ s1.buf.fillPointer < bufferSize) := by
      intro h
      exact absurd h.2 (by omega)
    rw [hp, refillCheck_neg stream s1 hc]
    exact ⟨rfl, rfl, rfl⟩

/-- C7 witness state: an engine on its 10th frame with an unfinished refill. -/
def mkS : NoiseProcessor := ⟨"white", ⟨fun _ => 0, fun _ => 0, 0, 0, 9, 0⟩, g0⟩

/-- C7 witness state: an engine on its 10th frame whose refill marker has
already reached capacity. -/
def mkSCap : NoiseProcessor := ⟨"white", ⟨fun _ => 0, fun _ => 0, 0, bufferSize, 9, 0⟩, g0⟩

/-- C7 witness: an eligible frame advances the fill pointer by 4800, and a
frame whose marker is at capacity leaves the fill pointer unchanged. -/
theorem C7_refill_policy_witness :
    (process (fun _ => 0) 0 0 mkS).2.buf.fillPointer = mkS.buf.fillPointer + 4800 ∧
    (process (fun _ => 0) 0 0 mkSCap).2.buf.fillPointer = mkSCap.buf.fillPointer :=
  ⟨((C7_refill_policy (fun _ => 0) 0 0 mkS mkS rfl).1
      (by norm_num [mkS, bufferSize])).1,
   ((C7_refill_policy (fun _ => 0) 0 0 mkSCap mkSCap rfl).2.2
      (by norm_num [mkSCap])).2.2⟩

/-! ### Equivalence of the two variants: run decompositions -/

theorem processChannels_one (blk : Nat) (s : NoiseProcessor) :
    processChannels 1 blk s = ([(genList blk s).1], (genList blk s).2) := by
  simp [processChannels]

theorem processChannelsU_one (stream : Nat → ℚ) (blk : Nat) (s : UnbufferedState) :
    processChannelsU stream 1 blk s = ([(genListU stream blk s).1], (genListU stream blk s).2) := by
  simp [processChannelsU]

theorem runB_succ (stream : Nat → ℚ) (t : String) (k : Nat) :
    runB stream t (k + 1) =
      ((runB stream t k).1 ++ (genList 128 (runB stream t k).2).1,
       refillCheck stream (genList 128 (runB stream t k).2).2) := by
  simp only [runB, process, processChannels_one]
  simp

theorem runU_succ (stream : Nat → ℚ) (t : String) (k : Nat) :
    runU stream t (k + 1) =
      ((runU stream t k).1 ++ (genListU stream 128 (runU stream t k).2).1,
       (genListU stream 128 (runU stream t k).2).2) := by
  simp only [runU, processU, processChannelsU_one]
  simp

theorem genList_cons (n : Nat) (s : NoiseProcessor) :
    (genList (n + 1) s).1 = (getSampleB s).1 :: (genList n (getSampleB s).2).1 := by
  simp only [genList]

theorem genListU_cons (stream : Nat → ℚ) (n : Nat) (s : UnbufferedState) :
    (genListU stream (n + 1) s).1
      = (getSampleU stream s).1 :: (genListU stream n (getSampleU stream s).2).1 := by
  simp only [genListU]

theorem getSampleB_out (s : NoiseProcessor) :
    (getSampleB s).1 = (applyGen s.noiseType (s.buf.active s.buf.index) s.gen).1 := by
  have h : (getSampleB s).1 = (applyGen s.noiseType (white s.buf).1 s.gen).1 := rfl
  rw [h, white_fst]

theorem getSampleU_out (stream : Nat → ℚ) (s : UnbufferedState) :
    (getSampleU stream s).1 = (applyGen s.noiseType (stream s.cursor) s.gen).1 := rfl

theorem getSampleB_gen (s : NoiseProcessor) :
    (getSampleB s).2.gen = (applyGen s.noiseType (s.buf.active s.buf.index) s.gen).2 := by
  have h : (getSampleB s).2.gen = (applyGen s.noiseType (white s.buf).1 s.gen).2 := rfl
  rw [h, white_fst]

theorem getSampleB_buf (s : NoiseProcessor) : (getSampleB s).2.buf = (white s.buf).2 := rfl

theorem getSampleB_noiseType (s : NoiseProcessor) :
    (getSampleB s).2.noiseType = s.noiseType := rfl

/-- drain bisimulation: as long as the active buffer holds exactly the
stream values the unbuffered variant is about to draw, the two variants
produce identical samples and identical generator states; the final buffer
state either just advances the index or performs the swap on the very last
draw. -/
theorem drainBisim (stream : Nat → ℚ) :
    ∀ (n : Nat) (sB : NoiseProcessor) (sU : UnbufferedState),
      sB.noiseType = sU.noiseType →
      sB.gen = sU.gen →
      (∀ m, m < n → sB.buf.active (sB.buf.index + m) = stream (sU.cursor + m)) →
      sB.buf.index + n ≤ bufferSize →
      (genList n sB).1 = (genListU stream n sU).1 ∧
      (genList n sB).2.gen = (genListU stream n sU).2.gen ∧
      (genList n sB).2.noiseType = sB.noiseType ∧
      (genListU stream n sU).2.noiseType = sU.noiseType ∧
      (genListU stream n sU).2.cursor = sU.cursor + n ∧
      (sB.buf.index + n < bufferSize →
        (genList n sB).2.buf = { sB.buf with index := sB.buf.index + n }) ∧
      (sB.buf.index + n = bufferSize → 0 < n →
        (genList n sB).2.buf = { sB.buf with active := sB.buf.inactive,
                                              inactive := sB.buf.active,
                                              index := 0, fillPointer := 0 }) := by
  intro n
  induction n with
  | zero =>
    intro sB sU ht hg _ _
    refine ⟨rfl, hg, rfl, rfl, rfl, fun _ => rfl, fun _ h0 => ?_⟩
    omega
  | succ n ih =>
    intro sB sU ht hg ha hn
    have hw : sB.buf.active sB.buf.index = stream sU.cursor := by
      have h0 := ha 0 (by omega)
      simpa using h0
    have hout : (getSampleB sB).1 = (getSampleU stream sU).1 := by
      rw [getSampleB_out, getSampleU_out, ht, hw, hg]
    have hgen : (getSampleB sB).2.gen = (getSampleU stream sU).2.gen := by
      have h2 : (getSampleU stream sU).2.gen
          = (applyGen sU.noiseType (stream sU.cursor) sU.gen).2 := rfl
      rw [getSampleB_gen, h2, ht, hw, hg]
    have htB : (getSampleB sB).2.noiseType = sB.noiseType := rfl
    have htU : (getSampleU stream sU).2.noiseType = sU.noiseType := rfl
    have hcU : (getSampleU stream sU).2.cursor = sU.cursor + 1 := rfl
    have eB : (genList (n + 1) sB).2 = (genList n (getSampleB sB).2).2 := by
      simp only [genList]
    have eU : (genListU stream (n + 1) sU).2
        = (genListU stream n (getSampleU stream sU).2).2 := by
      simp only [genListU]
    rcases Nat.lt_or_ge (sB.buf.index + 1) bufferSize with hlt | hge
    · have hbuf : (getSampleB sB).2.buf = { sB.buf with index := sB.buf.index + 1 } := by
        rw [getSampleB_buf, white_step sB.buf hlt]
      have hbufIdx : (getSampleB sB).2.buf.index = sB.buf.index + 1 := by rw [hbuf]
      have hbufAct : (getSampleB sB).2.buf.active = sB.buf.active := by rw [hbuf]
      have hih := ih ((getSampleB sB).2) ((getSampleU stream sU).2)
        (by rw [htB, htU, ht])
        hgen
        (by
          intro m hm
          rw [hbufAct, hbufIdx, hcU]
          have e1 : sB.buf.index + 1 + m = sB.buf.index + (m + 1) := by omega
          have e2 : sU.cursor + 1 + m = sU.cursor + (m + 1) := by omega
          rw [e1, e2]
          exact ha (m + 1) (by omega))
        (by rw [hbufIdx]; omega)
      obtain ⟨i1, i2, i3, i4, i5, i6, i7⟩ := hih
      refine ⟨?_, ?_, ?_, ?_, ?_, ?_, ?_⟩
      · rw [genList_cons, genListU_cons, hout, i1]
      · rw [eB, eU, i2]
      · rw [eB, i3, htB]
      · rw [eU, i4, htU]
      · rw [eU, i5, hcU]
        omega
      · intro hlt2
        have h6 := i6 (by rw [hbufIdx]; omega)
        rw [eB, h6, hbufIdx,
          (by omega : sB.buf.index + 1 + n = sB.buf.index + (n + 1)), hbuf]
      · intro heq hpos
        have hn0 : 0 < n := by omega
        have h7 := i7 (by rw [hbufIdx]; omega) hn0
        rw [eB, h7, hbuf]
    · have heq1 : sB.buf.index + 1 = bufferSize := by omega
      have hn0 : n = 0 := by omega
      subst hn0
      have hbuf : (getSampleB sB).2.buf = { sB.buf with active := sB.buf.inactive,
                                                         inactive := sB.buf.active,
                                                         index := 0,
                                                         fillPointer := 0 } := by
        rw [getSampleB_buf, white_swap sB.buf hge]
      refine ⟨?_, ?_, ?_, ?_, ?_, ?_, ?_⟩
      · rw [genList_cons, genListU_cons, hout]
        rfl
      · rw [eB, eU]
        exact hgen
      · rw [eB]
        exact htB
      · rw [eU]
        exact htU
      · rw [eU]
        exact hcU
      · intro hlt2
        omega
      · intro _ _
        rw [eB]
        exact hbuf

/-- the joint state invariant of the two variants driven block-by-block,
valid while the first active buffer is still draining (`k ≤ 11249` blocks
of 128 samples, i.e. strictly before the swap completes). -/
def RunsInv (stream : Nat → ℚ) (t : String) (k : Nat) : Prop :=
  (runB stream t k).2.noiseType = t ∧
  (runU stream t k).2.noiseType = t ∧
  (runB stream t k).2.gen = (runU stream t k).2.gen ∧
  (runU stream t k).2.cursor = 128 * k ∧
  (runB stream t k).2.buf.index = 128 * k ∧
  (runB stream t k).2.buf.frameCount = k ∧
  (runB stream t k).2.buf.active = streamA stream ∧
  (runB stream t k).2.buf.fillPointer = 4800 * min (k / 10) 300 ∧
  (runB stream t k).2.buf.cursor = 2 * bufferSize + 4800 * min (k / 10) 300 ∧
  (∀ j, (runB stream t k).2.buf.inactive j =
    if j < 4800 * min (k / 10) 300 then stream (2 * bufferSize + j)
    else streamB stream j) ∧
  (runB stream t k).1 = (runU stream t k).1

set_option maxRecDepth 40000

theorem runInvHolds (stream : Nat → ℚ) (t : String) :
    ∀ k, k ≤ 11249 → RunsInv stream t k := by
  intro k
  induction k with
  | zero =>
    intro _
    have hbe : (runB stream t 0).2.buf
        = ⟨streamA stream, streamB stream, 0, 0, 0, 2 * bufferSize⟩ := initBuf_eq stream
    refine ⟨rfl, rfl, rfl, rfl, ?_, ?_, ?_, ?_, ?_, ?_, rfl⟩
    · rw [hbe]
    · rw [hbe]
    · rw [hbe]
    · rw [hbe]
      norm_num
    · rw [hbe]
      norm_num
    · intro j
      rw [hbe]
      norm_num
  | succ k ih =>
    intro hk1
    have hbs : bufferSize = 1440000 := by norm_num [bufferSize]
    have hk : k ≤ 11248 := by omega
    obtain ⟨v1, v2, v3, v4, v5, v6, v7, v8, v9, v10, v11⟩ := ih (by omega)
    obtain ⟨b1, b2, b3, b4, b5, b6, b7⟩ :=
      drainBisim stream 128 (runB stream t k).2 (runU stream t k).2
        (by rw [v1, v2])
        v3
        (by
          intro m hm
          rw [v7, v5, v4]
          have hlt : 128 * k + m < bufferSize := by omega
          simp only [streamA]
          rw [if_pos hlt])
        (by rw [v5]; omega)
    have hlt128 : (runB stream t k).2.buf.index + 128 < bufferSize := by
      rw [v5]; omega
    have hs1 : (genList 128 (runB stream t k).2).2.buf
        = { (runB stream t k).2.buf with index := (runB stream t k).2.buf.index + 128 } :=
      b6 hlt128
    have hs1idx : (genList 128 (runB stream t k).2).2.buf.index = 128 * (k + 1) := by
      rw [hs1]
      show (runB stream t k).2.buf.index + 128 = 128 * (k + 1)
      rw [v5]; ring
    have hs1fc : (genList 128 (runB stream t k).2).2.buf.frameCount = k := by
      rw [hs1]; exact v6
    have hs1fp : (genList 128 (runB stream t k).2).2.buf.fillPointer
        = 4800 * min (k / 10) 300 := by
      rw [hs1]; exact v8
    have hs1cur : (genList 128 (runB stream t k).2).2.buf.cursor
        = 2 * bufferSize + 4800 * min (k / 10) 300 := by
      rw [hs1]; exact v9
    have hs1act : (genList 128 (runB stream t k).2).2.buf.active = streamA stream := by
      rw [hs1]; exact v7
    have hs1inact : ∀ j, (genList 128 (runB stream t k).2).2.buf.inactive j
        = if j < 4800 * min (k / 10) 300 then stream (2 * bufferSize + j)
          else streamB stream j := by
      intro j
      rw [hs1]; exact v10 j
    have hs1nt : (genList 128 (runB stream t k).2).2.noiseType = t := by
      rw [b3, v1]
    have hRB : (runB stream t (k + 1)).2
        = refillCheck stream (genList 128 (runB stream t k).2).2 := by
      rw [runB_succ]
    have hRU : (runU stream t (k + 1)).2
        = (genListU stream 128 (runU stream t k).2).2 := by
      rw [runU_succ]
    have hOB : (runB stream t (k + 1)).1
        = (runB stream t k).1 ++ (genList 128 (runB stream t k).2).1 := by
      rw [runB_succ]
    have hOU : (runU stream t (k + 1)).1
        = (runU stream t k).1 ++ (genListU stream 128 (runU stream t k).2).1 := by
      rw [runU_succ]
    by_cases hc : (k + 1) % 10 = 0 ∧ 4800 * min (k / 10) 300 < bufferSize
    · have hfp4800 : (genList 128 (runB stream t k).2).2.buf.fillPointer + 4800
          ≤ bufferSize := by
        rw [hs1fp]; omega
      have hcond : ((genList 128 (runB stream t k).2).2.buf.frameCount + 1) % 10 = 0 ∧
          (genList 128 (runB stream t k).2).2.buf.fillPointer < bufferSize := by
        rw [hs1fc, hs1fp]
        exact hc
      obtain ⟨r1, r2, r3, r4, r5, r6, r7, r8⟩ :=
        refillCheck_pos stream (genList 128 (runB stream t k).2).2 hfp4800 hcond
      have hfpStep : 4800 * min ((k + 1) / 10) 300
          = 4800 * min (k / 10) 300 + 4800 := by omega
      refine ⟨?_, ?_, ?_, ?_, ?_, ?_, ?_, ?_, ?_, ?_, ?_⟩
      · rw [hRB, r7]
        exact hs1nt
      · rw [hRU, b4, v2]
      · rw [hRB, hRU, r8]
        exact b2
      · rw [hRU, b5, v4]
        ring
      · rw [hRB, r6]
        exact hs1idx
      · rw [hRB, r5, hs1fc]
      · rw [hRB, r3]
        exact hs1act
      · rw [hRB, r1, hs1fp, hfpStep]
      · rw [hRB, r4, hs1cur, hfpStep]
        ring
      · intro j
        rw [hRB, r2 j, hs1fp, hs1cur, hs1inact j, hfpStep]
        by_cases h1 : j < 4800 * min (k / 10) 300
        · rw [if_neg (by omega), if_pos h1, if_pos (by omega)]
        · by_cases h2 : j < 4800 * min (k / 10) 300 + 4800
          · rw [if_pos ⟨by omega, by omega⟩, if_pos (by omega)]
            exact congrArg stream (by omega)
          · rw [if_neg (by omega), if_neg h1, if_neg (by omega)]
      · rw [hOB, hOU, v11, b1]
    · have hcond : ¬ (((genList 128 (runB stream t k).2).2.buf.frameCount + 1) % 10 = 0 ∧
          (genList 128 (runB stream t k).2).2.buf.fillPointer < bufferSize) := by
        rw [hs1fc, hs1fp]
        exact hc
      obtain ⟨n1, n2, n3, n4, n5, n6, n7, n8⟩ :=
        refillCheck_neg_fields stream (genList 128 (runB stream t k).2).2 hcond
      have hfpSame : 4800 * min ((k + 1) / 10) 300 = 4800 * min (k / 10) 300 := by omega
      refine ⟨?_, ?_, ?_, ?_, ?_, ?_, ?_, ?_, ?_, ?_, ?_⟩
      · rw [hRB, n7]
        exact hs1nt
      · rw [hRU, b4, v2]
      · rw [hRB, hRU, n8]
        exact b2
      · rw [hRU, b5, v4]
        ring
      · rw [hRB, n6]
        exact hs1idx
      · rw [hRB, n5, hs1fc]
      · rw [hRB, n3]
        exact hs1act
      · rw [hRB, n1, hfpSame]
        exact hs1fp
      · rw [hRB, n4, hfpSame]
        exact hs1cur
      · intro j
        rw [hRB, n2 j, hfpSame]
        exact hs1inact j
      · rw [hOB, hOU, v11, b1]

/-- field equations of the swapped buffer state. -/
theorem swapFields (b c : BufState)
    (h : c = { b with active := b.inactive, inactive := b.active,
                      index := 0, fillPointer := 0 }) :
    c.active = b.inactive ∧ c.inactive = b.active ∧ c.index = 0 ∧ c.fillPointer = 0 ∧
    c.frameCount = b.frameCount ∧ c.cursor = b.cursor := by
  subst h
  exact ⟨rfl, rfl, rfl, rfl, rfl, rfl⟩

/-- the two variants produce identical sample streams for the first 11250
blocks (the first 1,440,000 samples — exactly one buffer capacity). -/
theorem runPrefixEq (stream : Nat → ℚ) (t : String) :
    ∀ k, k ≤ 11250 → (runB stream t k).1 = (runU stream t k).1 := by
  intro k hk
  rcases Nat.lt_or_ge k 11250 with h | h
  · exact (runInvHolds stream t k (by omega)).2.2.2.2.2.2.2.2.2.2
  · have hk50 : k = 11250 := by omega
    subst hk50
    have hbs : bufferSize = 1440000 := by norm_num [bufferSize]
    obtain ⟨v1, v2, v3, v4, v5, v6, v7, v8, v9, v10, v11⟩ :=
      runInvHolds stream t 11249 (by omega)
    obtain ⟨b1, -, -, -, -, -, -⟩ :=
      drainBisim stream 128 (runB stream t 11249).2 (runU stream t 11249).2
        (by rw [v1, v2])
        v3
        (by
          intro m hm
          rw [v7, v5, v4]
          have hlt : 128 * 11249 + m < bufferSize := by omega
          simp only [streamA]
          rw [if_pos hlt])
        (by rw [v5]; omega)
    have hOB : (runB stream t 11250).1
        = (runB stream t 11249).1 ++ (genList 128 (runB stream t 11249).2).1 := by
      rw [show (11250 : Nat) = 11249 + 1 from rfl, runB_succ]
    have hOU : (runU stream t 11250).1
        = (runU stream t 11249).1 ++ (genListU stream 128 (runU stream t 11249).2).1 := by
      rw [show (11250 : Nat) = 11249 + 1 from rfl, runU_succ]
    rw [hOB, hOU, v11, b1]

/-- the double-buffered state right after the swap (11250 blocks): the read
index is back at 0, and position 0 of the newly active buffer holds
`stream (2 · bufferSize)` — a refill value, not `stream bufferSize`. -/
theorem runB11250 (stream : Nat → ℚ) (t : String) :
    (runB stream t 11250).2.noiseType = t ∧
    (runB stream t 11250).2.buf.index = 0 ∧
    (runB stream t 11250).2.buf.active 0 = stream (2 * bufferSize) ∧
    (runU stream t 11250).2.noiseType = t ∧
    (runU stream t 11250).2.cursor = 1440000 := by
  have hbs : bufferSize = 1440000 := by norm_num [bufferSize]
  obtain ⟨v1, v2, v3, v4, v5, v6, v7, v8, v9, v10, v11⟩ :=
    runInvHolds stream t 11249 (by omega)
  obtain ⟨b1, b2, b3, b4, b5, b6, b7⟩ :=
    drainBisim stream 128 (runB stream t 11249).2 (runU stream t 11249).2
      (by rw [v1, v2])
      v3
      (by
        intro m hm
        rw [v7, v5, v4]
        have hlt : 128 * 11249 + m < bufferSize := by omega
        simp only [streamA]
        rw [if_pos hlt])
      (by rw [v5]; omega)
  have hidxswap : (runB stream t 11249).2.buf.index + 128 = bufferSize := by
    rw [v5]; omega
  have hs1 := b7 hidxswap (by omega)
  obtain ⟨f1, f2, f3, f4, f5, f6⟩ :=
    swapFields (runB stream t 11249).2.buf (genList 128 (runB stream t 11249).2).2.buf hs1
  have hRB : (runB stream t 11250).2
      = refillCheck stream (genList 128 (runB stream t 11249).2).2 := by
    rw [show (11250 : Nat) = 11249 + 1 from rfl, runB_succ]
  have hRU : (runU stream t 11250).2
      = (genListU stream 128 (runU stream t 11249).2).2 := by
    rw [show (11250 : Nat) = 11249 + 1 from rfl, runU_succ]
  have hs1fc : (genList 128 (runB stream t 11249).2).2.buf.frameCount = 11249 :=
    f5.trans v6
  have hs1fp : (genList 128 (runB stream t 11249).2).2.buf.fillPointer = 0 := f4
  have hs1idx : (genList 128 (runB stream t 11249).2).2.buf.index = 0 := f3
  have hs1act : ∀ j, (genList 128 (runB stream t 11249).2).2.buf.active j
      = (runB stream t 11249).2.buf.inactive j :=
    fun j => congrFun f1 j
  have hs1nt : (genList 128 (runB stream t 11249).2).2.noiseType = t := by
    rw [b3, v1]
  have hcond : ((genList 128 (runB stream t 11249).2).2.buf.frameCount + 1) % 10 = 0 ∧
      (genList 128 (runB stream t 11249).2).2.buf.fillPointer < bufferSize := by
    rw [hs1fc, hs1fp]
    exact ⟨by norm_num, by omega⟩
  have hfp4800 : (genList 128 (runB stream t 11249).2).2.buf.fillPointer + 4800
      ≤ bufferSize := by
    rw [hs1fp]; omega
  obtain ⟨r1, r2, r3, r4, r5, r6, r7, r8⟩ :=
    refillCheck_pos stream (genList 128 (runB stream t 11249).2).2 hfp4800 hcond
  refine ⟨?_, ?_, ?_, ?_, ?_⟩
  · rewrite [hRB, r7]
    exact hs1nt
  · rewrite [hRB, r6]
    exact hs1idx
  · rewrite [hRB, r3, hs1act 0, v10 0, if_pos (by omega)]
    exact congrArg stream (by omega)
  · rewrite [hRU, b4, v2]
    rfl
  · rewrite [hRU, b5, v4]
    norm_num

/-- C9 counterexample: driven by the same concrete uniform stream `st9`
(values in `(0, 1/2]`), after 11251 blocks of 128 samples the two variants
have produced different sample sequences: sample 1,440,000 of the buffered
variant is `st9 2880000` (the prefetcher refilled the swapped-in buffer
with later stream values) while the unbuffered variant produces
`st9 1440000`. -/
theorem C9_counterexample :
    (runB st9 "white" 11251).1 ≠ (runU st9 "white" 11251).1 := by
  have hOB : (runB st9 "white" 11251).1
      = (runB st9 "white" 11250).1 ++ (genList 128 (runB st9 "white" 11250).2).1 := by
    rw [show (11251 : Nat) = 11250 + 1 from rfl, runB_succ]
  have hOU : (runU st9 "white" 11251).1
      = (runU st9 "white" 11250).1
        ++ (genListU st9 128 (runU st9 "white" 11250).2).1 := by
    rw [show (11251 : Nat) = 11250 + 1 from rfl, runU_succ]
  obtain ⟨w1, w2, w3, w4, w5⟩ := runB11250 st9 "white"
  have hhB : (genList 128 (runB st9 "white" 11250).2).1
      = (getSampleB (runB st9 "white" 11250).2).1
        :: (genList 127 (getSampleB (runB st9 "white" 11250).2).2).1 := by
    rw [show (128 : Nat) = 127 + 1 from rfl, genList_cons]
  have hhU : (genListU st9 128 (runU st9 "white" 11250).2).1
      = (getSampleU st9 (runU st9 "white" 11250).2).1
        :: (genListU st9 127 (getSampleU st9 (runU st9 "white" 11250).2).2).1 := by
    rw [show (128 : Nat) = 127 + 1 from rfl, genListU_cons]
  have hB0 : (getSampleB (runB st9 "white" 11250).2).1 = st9 (2 * bufferSize) := by
    rw [getSampleB_out, w1, w2, w3, applyGen_white]
  have hU0 : (getSampleU st9 (runU st9 "white" 11250).2).1 = st9 1440000 := by
    rw [getSampleU_out, w4, w5, applyGen_white]
  intro heq
  rw [hOB, hOU, runPrefixEq st9 "white" 11250 (by omega)] at heq
  have hblocks := List.append_cancel_left heq
  rw [hhB, hhU] at hblocks
  have hheads : (getSampleB (runB st9 "white" 11250).2).1
      = (getSampleU st9 (runU st9 "white" 11250).2).1 := by
    have hh := congrArg List.head? hblocks
    simpa using hh
  rw [hB0, hU0] at hheads
  norm_num [st9, bufferSize] at hheads

/-- C9 amended: the double-buffered and the unbuffered variants, driven by
the same underlying uniform stream (1 channel, 128-sample blocks), produce
identical sample sequences for the first 11250 blocks — i.e. the first
1,440,000 samples, one full buffer capacity — for every noise kind; from
sample 1,440,000 on they diverge, because the prefetcher has overwritten
the swapped-in buffer with stream values drawn ahead of the read order. -/
theorem C9_amended_prefix_agreement (stream : Nat → ℚ) (t : String) (k : Nat)
    (hk : k ≤ 11250) :
    (runB stream t k).1 = (runU stream t k).1 :=
  runPrefixEq stream t k hk

/-- C9 witness: the amended agreement instantiated at two blocks of pink
noise over the all-zero stream. -/
theorem C9_amended_prefix_agreement_witness :
    (runB (fun _ => 0) "pink" 2).1 = (runU (fun _ => 0) "pink" 2).1 :=
  C9_amended_prefix_agreement (fun _ => 0) "pink" 2 (by norm_num)

end WhoaNoise
